import Mathlib

/-!
Verification of the TDT channel playlist builder.

The development shallowly embeds the Python sources
(`3-build_playlist.py`, `build_playlist.py`, `1-discovery_channels.py`).
Strings are modelled as `List Char`; Python regular-expression substitutions
are modelled by deterministic scanners faithful to the leftmost,
non-overlapping semantics of `re.sub` for the concrete patterns used by the
program.  Whitespace, digit and case predicates are the ASCII fragments of
the Python classes, which cover every character the program manipulates.
-/

/-- ASCII model of the Python whitespace class used by `str.strip`,
`str.split()` and the regex class `\s`. -/
def isWS (c : Char) : Bool :=
  c == ' ' || c == '\t' || c == '\n' || c == '\r' || c == '\x0b' || c == '\x0c'

/-- ASCII model of the regex class `\d`. -/
def isDigitCh (c : Char) : Bool :=
  '0' ≤ c && c ≤ '9'

/-- Python `str.strip()`: drop whitespace from both ends. -/
def strip (s : List Char) : List Char :=
  ((s.dropWhile isWS).reverse.dropWhile isWS).reverse

/-- Python `str.lower()` (ASCII model, characterwise). -/
def lower (s : List Char) : List Char :=
  s.map Char.toLower

/-- Python `str.startswith`: `startsWithL pre s` holds when `pre` is an
initial segment of `s`. -/
def startsWithL : List Char → List Char → Bool
  | [], _ => true
  | _ :: _, [] => false
  | p :: ps, c :: cs => p == c && startsWithL ps cs

/-- Python `needle in hay` substring containment. -/
def hasSub : List Char → List Char → Bool
  | hay, needle =>
    if startsWithL needle hay then true
    else
      match hay with
      | [] => false
      | _ :: t => hasSub t needle

/-- Python `s.split(sep, 1)` for a one-character separator, returning the
part before the first occurrence and the part after it (the caller guards
on the separator being present). -/
def splitFirst (sep : Char) (s : List Char) : List Char × List Char :=
  (s.takeWhile (fun c => c != sep), (s.dropWhile (fun c => c != sep)).tail)

/-- Accumulator-based worker for Python `str.split()` (split on whitespace
runs, dropping empty pieces). -/
def wordsAux : List Char → List Char → List (List Char)
  | [], acc => if acc.isEmpty then [] else [acc.reverse]
  | c :: cs, acc =>
    if isWS c then
      if acc.isEmpty then wordsAux cs [] else acc.reverse :: wordsAux cs []
    else wordsAux cs (c :: acc)

/-- Python `str.split()` with no argument. -/
def words (s : List Char) : List (List Char) :=
  wordsAux s []

/-- Python `' '.join(ws)`. -/
def joinSpace : List (List Char) → List Char
  | [] => []
  | [w] => w
  | w :: ws => w ++ ' ' :: joinSpace ws

/-- Generic model of `re.sub(pattern, '', s)` for the deterministic patterns
used by the program: `m` attempts a match at the current position and, on
success, returns the remainder of the string after the (non-empty) match.
Scanning restarts after a removal exactly as `re.sub` continues after a
match; `fuel` bounds the recursion and `gsub` supplies enough of it because
every successful match consumes at least one character. -/
def gsubAux (m : List Char → Option (List Char)) : Nat → List Char → List Char
  | 0, s => s
  | _ + 1, [] => []
  | fuel + 1, c :: cs =>
    match m (c :: cs) with
    | some rest => gsubAux m fuel rest
    | none => c :: gsubAux m fuel cs

/-- `re.sub(pattern, '', s)` driver. -/
def gsub (m : List Char → Option (List Char)) (s : List Char) : List Char :=
  gsubAux m s.length s

/-- Match attempt for the pattern `\s*\(\d+p\)` (resolution tags).  The
greedy `\s*` must end exactly at a `(` and the greedy `\d+` exactly at the
`p`, so the Python backtracking search is deterministic here. -/
def matchRes (cs : List Char) : Option (List Char) :=
  match cs.dropWhile isWS with
  | '(' :: r1 =>
    if (r1.takeWhile isDigitCh).isEmpty then none
    else
      match r1.dropWhile isDigitCh with
      | 'p' :: ')' :: rest => some rest
      | _ => none
  | _ => none

/-- Match attempt for the pattern `\s*\[.*?\]` (status tags).  The lazy
`.*?` stops at the first `]`; `.` does not cross a newline. -/
def matchBr (cs : List Char) : Option (List Char) :=
  match cs.dropWhile isWS with
  | '[' :: r1 =>
    match r1.dropWhile (fun c => c != ']' && c != '\n') with
    | ']' :: rest => some rest
    | _ => none
  | _ => none

/-- Match attempt for an attribute pattern `lit[^"]*"\s*`, where `lit` is a
literal such as `tvg-chno="` or `group-title="`: the greedy `[^"]*` stops at
the first closing quote. -/
def matchAttr (lit : List Char) (cs : List Char) : Option (List Char) :=
  if startsWithL lit cs then
    match (cs.drop lit.length).dropWhile (fun c => c != '"') with
    | '"' :: rest => some (rest.dropWhile isWS)
    | _ => none
  else none

/-- Configuration constant `GROUP_TITLE_MODE` of `3-build_playlist.py`. -/
def GROUP_TITLE_MODE : List Char := "unique".data

/-- Configuration constant `UNIQUE_GROUP_NAME` of `3-build_playlist.py`. -/
def UNIQUE_GROUP_NAME : List Char := "TDT España".data

/-- Configuration constant `ADD_NUMERIC_PREFIX` of `3-build_playlist.py`. -/
def ADD_NUMERIC_PREFIX : Bool := true

/-- Configuration constant `CLEAN_CHANNEL_NAMES` of `3-build_playlist.py`. -/
def CLEAN_CHANNEL_NAMES : Bool := true

/-- `clean_channel_name` of `3-build_playlist.py`:
`re.sub(r'\s*\(\d+p\)', '', name)`, then `re.sub(r'\s*\[.*?\]', '', ...)`,
then `' '.join(....split())`, then `.strip()`; the whole body is skipped
when `CLEAN_CHANNEL_NAMES` is off. -/
def clean_channel_name (channel_name : List Char) : List Char :=
  if CLEAN_CHANNEL_NAMES then
    strip (joinSpace (words (gsub matchBr (gsub matchRes channel_name))))
  else channel_name

/-- `extract_channel_name` (identical in `3-build_playlist.py`,
`build_playlist.py` and as the name extraction of `parse_extinf` in
`1-discovery_channels.py`): `extinf_line.split(',', 1)[1].strip()` when a
comma is present, the empty string otherwise. -/
def extract_channel_name (extinf_line : List Char) : List Char :=
  if extinf_line.contains ',' then strip (splitFirst ',' extinf_line).2
  else []

/-- Python `s.replace(c, '')` for a one-character pattern. -/
def removeAll (c : Char) (s : List Char) : List Char :=
  s.filter (fun x => x != c)

/-- Python `s.endswith(suf)`. -/
def endsWithL (suf s : List Char) : Bool :=
  startsWithL suf.reverse s.reverse

/-- `clean_url` of `3-build_playlist.py`: strip, remove one outer matching
pair of square brackets, remove every remaining square bracket, strip. -/
def clean_url (url : List Char) : List Char :=
  let u1 := strip url
  let u2 := if startsWithL ['['] u1 && endsWithL [']'] u1 then (u1.drop 1).dropLast else u1
  strip (removeAll ']' (removeAll '[' u2))

/-- Python `s.replace(old, rep, 1)`: replace the first occurrence only. -/
def replaceFirst (old rep : List Char) : List Char → List Char
  | [] => if startsWithL old [] then rep else []
  | c :: cs =>
    if startsWithL old (c :: cs) then rep ++ (c :: cs).drop old.length
    else c :: replaceFirst old rep cs

/-- One decimal digit as a character. -/
def digitChar : Nat → Char
  | 0 => '0' | 1 => '1' | 2 => '2' | 3 => '3' | 4 => '4'
  | 5 => '5' | 6 => '6' | 7 => '7' | 8 => '8' | _ => '9'

/-- Worker for the decimal representation; the fuel is an upper bound on
the number of digits. -/
def natDigitsAux : Nat → Nat → List Char → List Char
  | 0, _, acc => acc
  | fuel + 1, n, acc =>
    if n < 10 then digitChar n :: acc
    else natDigitsAux fuel (n / 10) (digitChar (n % 10) :: acc)

/-- Python `str(n)` / `f'{n}'` for a natural number. -/
def natDigits (n : Nat) : List Char :=
  natDigitsAux (n + 1) n []

/-- Python `f'{n:03d}'`: decimal representation zero-padded to width 3. -/
def pad3 (n : Nat) : List Char :=
  List.replicate (3 - (natDigits n).length) '0' ++ natDigits n

/-- Replacement text `#EXTINF:-1 tvg-chno="{n}" ` used by
`add_channel_number_to_extinf`. -/
def tvgChnoRep (n : Nat) : List Char :=
  "#EXTINF:-1 tvg-chno=\"".data ++ natDigits n ++ "\" ".data

/-- `add_channel_number_to_extinf` of `3-build_playlist.py`: remove any
existing `tvg-chno="..."` attribute (`re.sub(r'tvg-chno="[^"]*"\s*', '', .)`),
then, when the line starts with `#EXTINF:-1`, insert the new attribute by
replacing the first `#EXTINF:-1 ` (falling back to replacing `#EXTINF:-1`
when the probe `#EXTINF:-1 tvg-chno=` is still absent). -/
def add_channel_number_to_extinf (extinf_line : List Char) (channel_number : Nat) : List Char :=
  let e1 := gsub (matchAttr "tvg-chno=\"".data) extinf_line
  if startsWithL "#EXTINF:-1".data e1 then
    let e2 := replaceFirst "#EXTINF:-1 ".data (tvgChnoRep channel_number) e1
    if hasSub e2 "#EXTINF:-1 tvg-chno=".data then e2
    else replaceFirst "#EXTINF:-1".data (tvgChnoRep channel_number) e2
  else e1

/-- `add_channel_prefix_to_name` of `3-build_playlist.py`: when the flag is
on and the line has a comma, replace the name after the first comma with
`f'{channel_number:03d}. {name}'`. -/
def add_channel_prefix_to_name (extinf_line : List Char) (channel_number : Nat) : List Char :=
  if ADD_NUMERIC_PREFIX then
    if extinf_line.contains ',' then
      (splitFirst ',' extinf_line).1 ++ ',' ::
        (pad3 channel_number ++ ". ".data ++ strip (splitFirst ',' extinf_line).2)
    else extinf_line
  else extinf_line

/-- `clean_extinf_channel_name` of `3-build_playlist.py`: when the flag is
on and the line has a comma, replace the name after the first comma with
its cleaned form. -/
def clean_extinf_channel_name (extinf_line : List Char) : List Char :=
  if CLEAN_CHANNEL_NAMES then
    if extinf_line.contains ',' then
      (splitFirst ',' extinf_line).1 ++ ',' ::
        clean_channel_name (strip (splitFirst ',' extinf_line).2)
    else extinf_line
  else extinf_line

/-- `normalize_group_title` of `3-build_playlist.py`, with the `mode` and
`custom_name` arguments made explicit (the builder passes the module
configuration constants for them). -/
def normalize_group_title (extinf_line : List Char) (channel_number : Nat)
    (mode : List Char) (custom_name : List Char) : List Char :=
  if mode = "original".data then extinf_line
  else if mode = "none".data then gsub (matchAttr "group-title=\"".data) extinf_line
  else
    let e1 := gsub (matchAttr "group-title=\"".data) extinf_line
    let newGroup :=
      if mode = "unique".data then custom_name
      else if mode = "custom".data then
        if channel_number ≤ 8 then "Nacionales".data
        else if channel_number ≤ 18 then "Entretenimiento".data
        else if channel_number ≤ 33 then "Autonómicos".data
        else "Temáticos".data
      else custom_name
    if e1.contains ',' then
      (splitFirst ',' e1).1 ++ " group-title=\"".data ++ newGroup ++
        '"' :: ',' :: (splitFirst ',' e1).2
    else e1

/-- `match_channel_strict` of `3-build_playlist.py`.  The Python body is a
cascade of early `return True` checks, equivalent to this disjunction:
exact equality, case-insensitive equality, containment of the wanted name
in the available one, the reverse containment, and equality of the cleaned
lower-cased names. -/
def match_channel_strict (available_name wanted_name : List Char) : Bool :=
  (strip available_name == strip wanted_name) ||
  (lower (strip available_name) == lower (strip wanted_name)) ||
  hasSub (lower (strip available_name)) (lower (strip wanted_name)) ||
  hasSub (lower (strip wanted_name)) (lower (strip available_name)) ||
  (lower (clean_channel_name (strip available_name)) ==
    lower (clean_channel_name (strip wanted_name)))

/-- One parsed channel record: the dictionary
`{'extinf': ..., 'url': ..., 'name': ...}` built by `parse_m3u`. -/
structure Channel where
  extinf : List Char
  url : List Char
  name : List Char
deriving DecidableEq

/-- Loop body of the candidate scan in `build_custom_playlist`: keep the
current best, replacing it only when a new matching candidate has a
strictly shorter raw name. -/
def selectStep (wanted : List Char) (best : Option Channel) (cd : Channel) : Option Channel :=
  if match_channel_strict cd.name wanted then
    match best with
    | none => some cd
    | some b => if cd.name.length < b.name.length then some cd else some b
  else best

/-- The inner candidate scan of `build_custom_playlist` for one wanted
name: fold the loop body over all channels starting from no best match. -/
def selectMatch (all_channels : List Channel) (wanted : List Char) : Option Channel :=
  all_channels.foldl (selectStep wanted) none

/-- Python `content.split('\n')`: split on every newline, keeping empty
pieces. -/
def splitNL : List Char → List (List Char)
  | [] => [[]]
  | c :: cs =>
    if c = '\n' then [] :: splitNL cs
    else
      match splitNL cs with
      | [] => [[c]]
      | l :: ls => (c :: l) :: ls

/-- The cursor loop of `parse_m3u` (identical in `3-build_playlist.py`,
`build_playlist.py` and `1-discovery_channels.py`), phrased on the list of
lines: a stripped line starting with `#EXTINF` paired with a following
line whose stripped form is non-empty and starts with `http` yields a
record and skips both lines; otherwise the cursor advances one line. -/
def parse_lines : List (List Char) → List Channel
  | [] => []
  | l :: rest =>
    if startsWithL "#EXTINF".data (strip l) then
      match rest with
      | [] => []
      | l2 :: rest2 =>
        if !(strip l2).isEmpty && startsWithL "http".data (strip l2) then
          ⟨strip l, strip l2, extract_channel_name (strip l)⟩ :: parse_lines rest2
        else parse_lines (l2 :: rest2)
    else parse_lines rest

/-- `parse_m3u`: split the content on newlines and run the cursor loop. -/
def parse_m3u (content : List Char) : List Channel :=
  parse_lines (splitNL content)

/-- First pass of `build_custom_playlist`
(`for idx, wanted in enumerate(wanted_channels, start=1)`): the
`found_channels` dictionary is modelled as a function from query strings to
an optional record-and-number pair; a successful match overwrites the entry
for that query with the current index. -/
def firstPassAux (all_channels : List Channel) :
    Nat → (List Char → Option (Channel × Nat)) → List (List Char) →
    (List Char → Option (Channel × Nat))
  | _, f, [] => f
  | idx, f, w :: ws =>
    firstPassAux all_channels (idx + 1)
      (match selectMatch all_channels w with
       | some c => fun q => if q = w then some (c, idx) else f q
       | none => f) ws

/-- The `found_channels` mapping after the first pass, with numbering
starting at 1. -/
def firstPass (all_channels : List Channel) (wanted_channels : List (List Char)) :
    List Char → Option (Channel × Nat) :=
  firstPassAux all_channels 1 (fun _ => none) wanted_channels

/-- The transformation chain applied to a matched descriptor line in the
second pass of `build_custom_playlist`: channel-number tag, name cleaning,
numeric prefix, group-title normalization (with the module configuration). -/
def transform_extinf (extinf_line : List Char) (channel_number : Nat) : List Char :=
  normalize_group_title
    (add_channel_prefix_to_name
      (clean_extinf_channel_name
        (add_channel_number_to_extinf extinf_line channel_number))
      channel_number)
    channel_number GROUP_TITLE_MODE UNIQUE_GROUP_NAME

/-- The lines contributed by one wanted entry in the second pass: the
transformed descriptor line and the cleaned URL on a hit, nothing on a
miss. -/
def emitEntry (found : List Char → Option (Channel × Nat)) (wanted : List Char) :
    List (List Char) :=
  match found wanted with
  | some (c, n) => [transform_extinf c.extinf n, clean_url c.url]
  | none => []

/-- `build_custom_playlist` as a list of output lines: the `#EXTM3U` header
followed by the lines of the second pass in wanted-list order. -/
def build_custom_playlist (all_channels : List Channel) (wanted_channels : List (List Char)) :
    List (List Char) :=
  "#EXTM3U".data ::
    (wanted_channels.map (emitEntry (firstPass all_channels wanted_channels))).flatten

/-- Python `'\n'.join(lines)`. -/
def joinNL : List (List Char) → List Char
  | [] => []
  | [l] => l
  | l :: ls => l ++ '\n' :: joinNL ls

/-- The final output text returned by `build_custom_playlist`. -/
def playlistText (all_channels : List Channel) (wanted_channels : List (List Char)) :
    List Char :=
  joinNL (build_custom_playlist all_channels wanted_channels)

/-- Number of lines of a text (one more than its newline count). -/
def numLines (t : List Char) : Nat :=
  t.count '\n' + 1

/-- One diagnostic line of the first pass of `build_custom_playlist`:
`f"Canal {idx}: ✅ '{wanted}' -> '{best_match}'"` on a hit and
`f"Canal {idx}: ❌ '{wanted}' -> NO ENCONTRADO"` on a miss. -/
def debugLine (all_channels : List Channel) (idx : Nat) (wanted : List Char) : List Char :=
  match selectMatch all_channels wanted with
  | some c =>
    "Canal ".data ++ natDigits idx ++ ": ✅ '".data ++ wanted ++ "' -> '".data ++
      c.name ++ "'".data
  | none =>
    "Canal ".data ++ natDigits idx ++ ": ❌ '".data ++ wanted ++ "' -> NO ENCONTRADO".data

/-- Worker accumulating the diagnostic lines with their 1-based indices. -/
def debugAux (all_channels : List Channel) : Nat → List (List Char) → List (List Char)
  | _, [] => []
  | idx, w :: ws => debugLine all_channels idx w :: debugAux all_channels (idx + 1) ws

/-- The `debug_matches` list of `build_custom_playlist`. -/
def debugMatches (all_channels : List Channel) (wanted_channels : List (List Char)) :
    List (List Char) :=
  debugAux all_channels 1 wanted_channels

-- ---------------------------------------------------------------------------
-- Specification-side reference definitions (used by refinement claims only).
-- ---------------------------------------------------------------------------

/-- Spec reading of the tie-break of section 4.3: the first element of a
candidate list whose raw name length is minimal (a later candidate displaces
an earlier one only when strictly shorter). -/
def firstShortest : List Channel → Option Channel
  | [] => none
  | c :: cs =>
    match firstShortest cs with
    | none => some c
    | some b => if b.name.length < c.name.length then some b else some c

/-- Spec reading of the matcher selection: among the candidates accepted by
`match_channel_strict`, the first one of minimal raw name length. -/
def matcherSpec (all_channels : List Channel) (wanted : List Char) : Option Channel :=
  firstShortest (all_channels.filter (fun c => match_channel_strict c.name wanted))

/-- Spec reading of the parser (section 4.1 as amended): every consecutive
pair of lines whose first member trims to a `#EXTINF` line and whose second
member trims to an `http` line yields exactly one record carrying the two
trimmed lines; every other descriptor yields nothing. -/
def parseSpec (ls : List (List Char)) : List Channel :=
  (ls.zip ls.tail).filterMap (fun p =>
    if startsWithL "#EXTINF".data (strip p.1) && startsWithL "http".data (strip p.2) then
      some ⟨strip p.1, strip p.2, extract_channel_name (strip p.1)⟩
    else none)

/-- Spec reading of the claimed name extraction: the substring after the
last comma of the line, trimmed (empty when there is no comma). -/
def extractLastSpec (extinf_line : List Char) : List Char :=
  if extinf_line.contains ',' then
    strip (extinf_line.reverse.takeWhile (fun c => c != ',')).reverse
  else []

-- ---------------------------------------------------------------------------
-- Concrete records used by the counterexamples and documented examples.
-- ---------------------------------------------------------------------------

/-- Candidate record with the exact display name of the spec example. -/
def chUHD : Channel := ⟨"#EXTINF:-1,La 1 UHD".data, "http://u1".data, "La 1 UHD".data⟩

/-- Candidate record with the annotated display name of the spec example. -/
def chUHD2160 : Channel :=
  ⟨"#EXTINF:-1,La 1 UHD (2160p)".data, "http://u2".data, "La 1 UHD (2160p)".data⟩

/-- Candidate record whose display name equals the query `La 1` exactly. -/
def chLa1exact : Channel := ⟨"#EXTINF:-1,La 1".data, "http://c1".data, "La 1".data⟩

/-- Candidate record whose display name `a 1` is a strict substring of `La 1`. -/
def chA1 : Channel := ⟨"#EXTINF:-1,a 1".data, "http://c2".data, "a 1".data⟩

/-- Candidate record with display name `A`. -/
def chA : Channel := ⟨"#EXTINF:-1,A".data, "http://a".data, "A".data⟩

/-- Record parsed from a descriptor line without a comma: its display name
is empty. -/
def chEmptyName : Channel := ⟨"#EXTINF:-1".data, "http://e".data, []⟩

/-- The source record of the end-to-end scenario of the spec. -/
def chLa1Source : Channel :=
  ⟨"#EXTINF:-1 tvg-id=\"La1.es\" group-title=\"General\",La 1 (1080p)".data,
   "http://example.com/stream".data, "La 1 (1080p)".data⟩

-- ---------------------------------------------------------------------------
-- Helper lemmas: membership and newline-freeness of the string operations.
-- ---------------------------------------------------------------------------

theorem startsWithL_nil (s : List Char) : startsWithL [] s = true := by
  cases s <;> rfl

theorem hasSub_nil (s : List Char) : hasSub s [] = true := by
  cases s <;> simp [hasSub, startsWithL_nil]

theorem mem_strip {c : Char} {s : List Char} (h : c ∈ strip s) : c ∈ s := by
  unfold strip at h
  have h1 := List.mem_reverse.mp h
  have h2 := (List.dropWhile_sublist isWS).subset h1
  have h3 := List.mem_reverse.mp h2
  exact (List.dropWhile_sublist isWS).subset h3

theorem matchRes_subset : ∀ {cs r : List Char}, matchRes cs = some r → r ⊆ cs := by
  intro cs r h
  unfold matchRes at h
  split at h
  case _ r1 heq =>
    split at h
    · exact absurd h (by simp)
    · split at h
      case _ rest heq2 =>
        cases h
        intro x hx
        have h1 : x ∈ r1.dropWhile isDigitCh := by
          rw [heq2]; exact List.mem_cons_of_mem _ (List.mem_cons_of_mem _ hx)
        have h2 : x ∈ cs.dropWhile isWS := by
          rw [heq]
          exact List.mem_cons_of_mem _ ((List.dropWhile_sublist isDigitCh).subset h1)
        exact (List.dropWhile_sublist isWS).subset h2
      case _ => exact absurd h (by simp)
  case _ => exact absurd h (by simp)

theorem matchBr_subset : ∀ {cs r : List Char}, matchBr cs = some r → r ⊆ cs := by
  intro cs r h
  unfold matchBr at h
  split at h
  case _ r1 heq =>
    split at h
    case _ rest heq2 =>
      cases h
      intro x hx
      have h1 : x ∈ r1.dropWhile (fun c => c != ']' && c != '\n') := by
        rw [heq2]; exact List.mem_cons_of_mem _ hx
      have h2 : x ∈ cs.dropWhile isWS := by
        rw [heq]
        exact List.mem_cons_of_mem _ ((List.dropWhile_sublist _).subset h1)
      exact (List.dropWhile_sublist isWS).subset h2
    case _ => exact absurd h (by simp)
  case _ => exact absurd h (by simp)

theorem matchAttr_subset (lit : List Char) :
    ∀ {cs r : List Char}, matchAttr lit cs = some r → r ⊆ cs := by
  intro cs r h
  unfold matchAttr at h
  split at h
  · split at h
    case _ rest heq =>
      cases h
      intro x hx
      have h1 : x ∈ rest := (List.dropWhile_sublist isWS).subset hx
      have h2 : x ∈ (cs.drop lit.length).dropWhile (fun c => c != '"') := by
        rw [heq]; exact List.mem_cons_of_mem _ h1
      exact List.drop_subset _ _ ((List.dropWhile_sublist _).subset h2)
    case _ => exact absurd h (by simp)
  · exact absurd h (by simp)

theorem gsubAux_subset (m : List Char → Option (List Char))
    (hm : ∀ cs r, m cs = some r → r ⊆ cs) :
    ∀ (fuel : Nat) (cs : List Char), gsubAux m fuel cs ⊆ cs := by
  intro fuel
  induction fuel with
  | zero => intro cs x hx; exact hx
  | succ f ih =>
    intro cs
    cases cs with
    | nil => intro x hx; simp [gsubAux] at hx
    | cons c cs =>
      cases hm2 : m (c :: cs) with
      | some rest =>
        intro x hx
        simp only [gsubAux, hm2] at hx
        exact hm _ _ hm2 (ih rest hx)
      | none =>
        intro x hx
        simp only [gsubAux, hm2] at hx
        rcases List.mem_cons.mp hx with h | h
        · exact h ▸ List.mem_cons_self c cs
        · exact List.mem_cons_of_mem _ (ih cs h)

theorem gsub_subset (m : List Char → Option (List Char))
    (hm : ∀ cs r, m cs = some r → r ⊆ cs) (s : List Char) : gsub m s ⊆ s :=
  gsubAux_subset m hm s.length s

theorem replaceFirst_mem {old rep : List Char} :
    ∀ {s : List Char} {x : Char}, x ∈ replaceFirst old rep s → x ∈ rep ∨ x ∈ s := by
  intro s
  induction s with
  | nil =>
    intro x hx
    unfold replaceFirst at hx
    split at hx
    · left; simpa using hx
    · simp at hx
  | cons c cs ih =>
    intro x hx
    unfold replaceFirst at hx
    split at hx
    · rcases List.mem_append.mp hx with h | h
      · exact Or.inl h
      · exact Or.inr (List.drop_subset _ _ h)
    · rcases List.mem_cons.mp hx with h | h
      · exact Or.inr (h ▸ List.mem_cons_self c cs)
      · rcases ih h with h2 | h2
        · exact Or.inl h2
        · exact Or.inr (List.mem_cons_of_mem _ h2)

theorem wordsAux_mem :
    ∀ {s acc w : List Char} {x : Char}, w ∈ wordsAux s acc → x ∈ w → x ∈ s ∨ x ∈ acc := by
  intro s
  induction s with
  | nil =>
    intro acc w x hw hx
    unfold wordsAux at hw
    split at hw
    · simp at hw
    · rw [List.mem_singleton] at hw
      exact Or.inr (List.mem_reverse.mp (hw ▸ hx))
  | cons c cs ih =>
    intro acc w x hw hx
    unfold wordsAux at hw
    split at hw
    · split at hw
      · rcases ih hw hx with h | h
        · exact Or.inl (List.mem_cons_of_mem _ h)
        · simp at h
      · rcases List.mem_cons.mp hw with h | h
        · exact Or.inr (List.mem_reverse.mp (h ▸ hx))
        · rcases ih h hx with h2 | h2
          · exact Or.inl (List.mem_cons_of_mem _ h2)
          · simp at h2
    · rcases ih hw hx with h | h
      · exact Or.inl (List.mem_cons_of_mem _ h)
      · rcases List.mem_cons.mp h with h2 | h2
        · exact Or.inl (h2 ▸ List.mem_cons_self c cs)
        · exact Or.inr h2

theorem joinSpace_mem :
    ∀ {ws : List (List Char)} {x : Char}, x ∈ joinSpace ws → (∃ w ∈ ws, x ∈ w) ∨ x = ' ' := by
  intro ws
  induction ws with
  | nil => intro x hx; simp [joinSpace] at hx
  | cons w ws ih =>
    intro x hx
    cases ws with
    | nil => exact Or.inl ⟨w, List.mem_singleton_self w, hx⟩
    | cons w2 ws2 =>
      rcases List.mem_append.mp hx with h | h
      · exact Or.inl ⟨w, List.mem_cons_self _ _, h⟩
      · rcases List.mem_cons.mp h with h2 | h2
        · exact Or.inr h2
        · rcases ih h2 with ⟨w3, hw3, hx3⟩ | h3
          · exact Or.inl ⟨w3, List.mem_cons_of_mem _ hw3, hx3⟩
          · exact Or.inr h3

theorem clean_mem {s : List Char} {x : Char}
    (h : x ∈ clean_channel_name s) : x ∈ s ∨ x = ' ' := by
  simp only [clean_channel_name, CLEAN_CHANNEL_NAMES, if_true] at h
  rcases joinSpace_mem (mem_strip h) with ⟨w, hw, hx⟩ | h2
  · rcases wordsAux_mem hw hx with h3 | h3
    · exact Or.inl
        (gsub_subset matchRes (fun _ _ => matchRes_subset) s
          (gsub_subset matchBr (fun _ _ => matchBr_subset) _ h3))
    · simp at h3
  · exact Or.inr h2

theorem digitChar_ne_nl : ∀ d : Nat, digitChar d ≠ '\n' := by
  intro d
  rcases d with _ | _ | _ | _ | _ | _ | _ | _ | _ | d <;> simp [digitChar]

theorem natDigitsAux_not_nl :
    ∀ (fuel n : Nat) {acc : List Char}, '\n' ∉ acc → '\n' ∉ natDigitsAux fuel n acc := by
  intro fuel
  induction fuel with
  | zero => intro n acc h; exact h
  | succ f ih =>
    intro n acc h
    unfold natDigitsAux
    split
    · intro hmem
      rcases List.mem_cons.mp hmem with h2 | h2
      · exact digitChar_ne_nl n h2.symm
      · exact h h2
    · refine ih _ ?_
      intro hmem
      rcases List.mem_cons.mp hmem with h2 | h2
      · exact digitChar_ne_nl (n % 10) h2.symm
      · exact h h2

theorem natDigits_not_nl (n : Nat) : '\n' ∉ natDigits n :=
  natDigitsAux_not_nl (n + 1) n (by simp)

theorem pad3_not_nl (n : Nat) : '\n' ∉ pad3 n := by
  intro h
  rcases List.mem_append.mp h with h2 | h2
  · exact absurd (List.eq_of_mem_replicate h2) (by decide)
  · exact natDigits_not_nl n h2

theorem tvgChnoRep_not_nl (n : Nat) : '\n' ∉ tvgChnoRep n := by
  intro h
  unfold tvgChnoRep at h
  rcases List.mem_append.mp h with h2 | h2
  · rcases List.mem_append.mp h2 with h3 | h3
    · exact absurd h3 (by decide)
    · exact natDigits_not_nl n h3
  · exact absurd h2 (by decide)

theorem splitFirst_fst_subset (sep : Char) (s : List Char) : (splitFirst sep s).1 ⊆ s :=
  List.takeWhile_subset _

theorem splitFirst_snd_subset (sep : Char) (s : List Char) : (splitFirst sep s).2 ⊆ s :=
  fun _ hx =>
    (List.dropWhile_sublist _).subset ((List.tail_sublist _).subset hx)

theorem add_channel_number_not_nl {e : List Char} (n : Nat) (h : '\n' ∉ e) :
    '\n' ∉ add_channel_number_to_extinf e n := by
  have he1 : '\n' ∉ gsub (matchAttr "tvg-chno=\"".data) e :=
    fun hm => h (gsub_subset _ (fun _ _ => matchAttr_subset _) e hm)
  simp only [add_channel_number_to_extinf]
  split
  · split
    · intro hm
      rcases replaceFirst_mem hm with h2 | h2
      · exact tvgChnoRep_not_nl n h2
      · exact he1 h2
    · intro hm
      rcases replaceFirst_mem hm with h2 | h2
      · exact tvgChnoRep_not_nl n h2
      · rcases replaceFirst_mem h2 with h3 | h3
        · exact tvgChnoRep_not_nl n h3
        · exact he1 h3
  · exact he1

theorem clean_extinf_not_nl {e : List Char} (h : '\n' ∉ e) :
    '\n' ∉ clean_extinf_channel_name e := by
  unfold clean_extinf_channel_name
  split
  · split
    · intro hm
      rcases List.mem_append.mp hm with h2 | h2
      · exact h (splitFirst_fst_subset ',' e h2)
      · rcases List.mem_cons.mp h2 with h3 | h3
        · exact absurd h3 (by decide)
        · rcases clean_mem h3 with h4 | h4
          · exact h (splitFirst_snd_subset ',' e (mem_strip h4))
          · exact absurd h4 (by decide)
    · exact h
  · exact h

theorem add_prefix_not_nl {e : List Char} (n : Nat) (h : '\n' ∉ e) :
    '\n' ∉ add_channel_prefix_to_name e n := by
  unfold add_channel_prefix_to_name
  split
  · split
    · intro hm
      rcases List.mem_append.mp hm with h2 | h2
      · exact h (splitFirst_fst_subset ',' e h2)
      · rcases List.mem_cons.mp h2 with h3 | h3
        · exact absurd h3 (by decide)
        · rcases List.mem_append.mp h3 with h4 | h4
          · rcases List.mem_append.mp h4 with h5 | h5
            · exact pad3_not_nl n h5
            · exact absurd h5 (by decide)
          · exact h (splitFirst_snd_subset ',' e (mem_strip h4))
    · exact h
  · exact h

theorem normalize_not_nl {e custom : List Char} (n : Nat) (mode : List Char)
    (h : '\n' ∉ e) (hc : '\n' ∉ custom) :
    '\n' ∉ normalize_group_title e n mode custom := by
  have he1 : '\n' ∉ gsub (matchAttr "group-title=\"".data) e :=
    fun hm => h (gsub_subset _ (fun _ _ => matchAttr_subset _) e hm)
  simp only [normalize_group_title]
  split
  · exact h
  · split
    · exact he1
    · split
      · intro hm
        rcases List.mem_append.mp hm with h2 | h2
        · rcases List.mem_append.mp h2 with h3 | h3
          · rcases List.mem_append.mp h3 with h4 | h4
            · exact he1 (splitFirst_fst_subset ',' _ h4)
            · exact absurd h4 (by decide)
          · revert h3
            split
            · exact fun h3 => hc h3
            · split
              · split
                · exact fun h3 => absurd h3 (by decide)
                · split
                  · exact fun h3 => absurd h3 (by decide)
                  · split
                    · exact fun h3 => absurd h3 (by decide)
                    · exact fun h3 => absurd h3 (by decide)
              · exact fun h3 => hc h3
        · rcases List.mem_cons.mp h2 with h3 | h3
          · exact absurd h3 (by decide)
          · rcases List.mem_cons.mp h3 with h4 | h4
            · exact absurd h4 (by decide)
            · exact he1 (splitFirst_snd_subset ',' _ h4)
      · exact he1

theorem transform_not_nl {e : List Char} (n : Nat) (h : '\n' ∉ e) :
    '\n' ∉ transform_extinf e n :=
  normalize_not_nl n GROUP_TITLE_MODE
    (add_prefix_not_nl n (clean_extinf_not_nl (add_channel_number_not_nl n h)))
    (by decide)

theorem clean_url_not_nl {u : List Char} (h : '\n' ∉ u) : '\n' ∉ clean_url u := by
  simp only [clean_url, removeAll]
  intro hm
  have h1 := mem_strip hm
  have h2 := List.filter_subset' _ h1
  have h3 := List.filter_subset' _ h2
  revert h3
  split
  · intro h3
    exact h (mem_strip (List.drop_subset _ _ ((List.dropLast_sublist _).subset h3)))
  · intro h3
    exact h (mem_strip h3)

theorem splitNL_not_nl : ∀ (s : List Char) {l : List Char}, l ∈ splitNL s → '\n' ∉ l := by
  intro s
  induction s with
  | nil =>
    intro l hl
    simp [splitNL] at hl
    simp [hl]
  | cons c cs ih =>
    intro l hl
    by_cases hc : c = '\n'
    · unfold splitNL at hl
      rw [if_pos hc] at hl
      rcases List.mem_cons.mp hl with h | h
      · simp [h]
      · exact ih h
    · unfold splitNL at hl
      rw [if_neg hc] at hl
      revert hl
      cases heq : splitNL cs with
      | nil =>
        intro hl
        simp only [heq, List.mem_singleton] at hl
        subst hl
        intro hm
        rcases List.mem_cons.mp hm with h | h
        · exact hc h.symm
        · simp at h
      | cons l0 ls =>
        intro hl
        simp only [heq] at hl
        rcases List.mem_cons.mp hl with h | h
        · subst h
          intro hm
          rcases List.mem_cons.mp hm with h2 | h2
          · exact hc h2.symm
          · exact ih (heq ▸ List.mem_cons_self l0 ls) h2
        · exact ih (heq ▸ List.mem_cons_of_mem l0 h)

theorem parse_lines_not_nl :
    ∀ ls : List (List Char), (∀ l ∈ ls, '\n' ∉ l) →
      ∀ ch ∈ parse_lines ls, '\n' ∉ ch.extinf ∧ '\n' ∉ ch.url := by
  intro ls
  induction ls using parse_lines.induct with
  | case1 => intro _ ch hch; simp [parse_lines] at hch
  | case2 l hl => intro _ ch hch; simp [parse_lines, hl] at hch
  | case3 l hl l2 rest2 hl2 ih =>
    intro hnl ch hch
    simp only [parse_lines, hl, hl2, if_true] at hch
    rcases List.mem_cons.mp hch with h | h
    · subst h
      constructor
      · exact fun hm => hnl l (List.mem_cons_self _ _) (mem_strip hm)
      · exact fun hm =>
          hnl l2 (List.mem_cons_of_mem _ (List.mem_cons_self _ _)) (mem_strip hm)
    · exact ih (fun x hx =>
        hnl x (List.mem_cons_of_mem _ (List.mem_cons_of_mem _ hx))) ch h
  | case4 l hl l2 rest2 hl2 ih =>
    intro hnl ch hch
    simp only [parse_lines, hl, hl2, if_true, if_false] at hch
    exact ih (fun x hx => hnl x (List.mem_cons_of_mem _ hx)) ch hch
  | case5 l rest hl ih =>
    intro hnl ch hch
    rw [parse_lines.eq_def] at hch
    simp only [hl, if_false] at hch
    exact ih (fun x hx => hnl x (List.mem_cons_of_mem _ hx)) ch hch

-- ---------------------------------------------------------------------------
-- Helper lemmas: the parser agrees with the pairwise description.
-- ---------------------------------------------------------------------------

theorem http_data : "http".data = ['h', 't', 't', 'p'] := rfl

theorem extinf_data : "#EXTINF".data = ['#', 'E', 'X', 'T', 'I', 'N', 'F'] := rfl

theorem startsWithL_http_not_empty {s : List Char}
    (h : startsWithL "http".data s = true) : s.isEmpty = false := by
  cases s with
  | nil => rw [http_data] at h; simp [startsWithL] at h
  | cons c cs => rfl

theorem http_not_extinf {s : List Char} (h : startsWithL "http".data s = true) :
    startsWithL "#EXTINF".data s = false := by
  cases s with
  | nil => rw [http_data] at h; simp [startsWithL] at h
  | cons c cs =>
    rw [http_data] at h
    rw [extinf_data]
    simp only [startsWithL, Bool.and_eq_true, beq_iff_eq] at h
    obtain ⟨hc, _⟩ := h
    subst hc
    simp [startsWithL]

theorem http_false_of_not_cond {s : List Char}
    (h : ¬((!s.isEmpty && startsWithL "http".data s) = true)) :
    startsWithL "http".data s = false := by
  by_cases hh : startsWithL "http".data s = true
  · exact absurd (by rw [startsWithL_http_not_empty hh, hh]; rfl) h
  · simpa using hh

theorem parseSpec_cons_cons (l l2 : List Char) (rest : List (List Char)) :
    parseSpec (l :: l2 :: rest) =
      (if startsWithL "#EXTINF".data (strip l) && startsWithL "http".data (strip l2) then
        [(⟨strip l, strip l2, extract_channel_name (strip l)⟩ : Channel)]
      else []) ++ parseSpec (l2 :: rest) := by
  simp only [parseSpec, List.tail_cons, List.zip_cons_cons, List.filterMap_cons]
  by_cases hcond :
      (startsWithL "#EXTINF".data (strip l) && startsWithL "http".data (strip l2)) = true
  · simp [hcond]
  · simp [hcond]

theorem parseSpec_drop_head {l : List Char} (rest : List (List Char))
    (h : startsWithL "#EXTINF".data (strip l) = false) :
    parseSpec (l :: rest) = parseSpec rest := by
  cases rest with
  | nil => simp [parseSpec]
  | cons l2 rest2 => rw [parseSpec_cons_cons]; simp [h]

theorem parse_lines_eq_parseSpec : ∀ ls : List (List Char), parse_lines ls = parseSpec ls := by
  intro ls
  induction ls using parse_lines.induct with
  | case1 => simp [parse_lines, parseSpec]
  | case2 l hl => simp [parse_lines, parseSpec, hl]
  | case3 l hl l2 rest2 hl2 ih =>
    have hhttp : startsWithL "http".data (strip l2) = true := by
      simp only [Bool.and_eq_true] at hl2
      exact hl2.2
    simp only [parse_lines, hl, hl2, if_true]
    rw [parseSpec_cons_cons, parseSpec_drop_head rest2 (http_not_extinf hhttp)]
    simp [hl, hhttp, ih]
  | case4 l hl l2 rest2 hl2 ih =>
    have hhttp : startsWithL "http".data (strip l2) = false := http_false_of_not_cond hl2
    simp only [parse_lines, hl, hl2, if_true, if_false]
    rw [parseSpec_cons_cons]
    simp [hhttp, ih]
  | case5 l rest hl ih =>
    rw [parse_lines.eq_def]
    simp only [hl, if_false]
    rw [parseSpec_drop_head rest (by simpa using hl)]
    exact ih

-- ---------------------------------------------------------------------------
-- Helper lemmas: the candidate scan picks the first shortest matching name.
-- ---------------------------------------------------------------------------

theorem firstShortest_cons_cons (x y : Channel) (zs : List Channel) :
    firstShortest (x :: y :: zs) =
      firstShortest ((if y.name.length < x.name.length then y else x) :: zs) := by
  cases hz : firstShortest zs with
  | none =>
    by_cases h2 : y.name.length < x.name.length
    · simp [firstShortest, hz, h2]
    · simp [firstShortest, hz, h2]
  | some b =>
    by_cases h1 : b.name.length < y.name.length
    · by_cases h2 : y.name.length < x.name.length
      · have h3 : b.name.length < x.name.length := h1.trans h2
        simp [firstShortest, hz, h1, h2, h3]
      · simp [firstShortest, hz, h1, h2]
    · by_cases h2 : y.name.length < x.name.length
      · simp [firstShortest, hz, h1, h2]
      · have h3 : ¬ b.name.length < x.name.length := by omega
        simp [firstShortest, hz, h1, h2, h3]

theorem foldl_selectStep (w : List Char) :
    ∀ (l : List Channel) (acc : Option Channel),
      l.foldl (selectStep w) acc =
        firstShortest (acc.toList ++ l.filter (fun c => match_channel_strict c.name w)) := by
  intro l
  induction l with
  | nil => intro acc; cases acc <;> simp [firstShortest]
  | cons cd l ih =>
    intro acc
    rw [List.foldl_cons, ih]
    by_cases hm : match_channel_strict cd.name w = true
    · rw [List.filter_cons, if_pos hm]
      cases acc with
      | none => simp [selectStep, hm]
      | some b =>
        simp only [selectStep, hm, if_true, Option.toList_some]
        rw [show (([b] : List Channel) ++ cd :: l.filter (fun c => match_channel_strict c.name w)) =
          b :: cd :: l.filter (fun c => match_channel_strict c.name w) from rfl]
        rw [firstShortest_cons_cons]
        by_cases hc : cd.name.length < b.name.length <;> simp [hc]
    · rw [List.filter_cons, if_neg hm]
      simp [selectStep, hm]

theorem selectMatch_eq_matcherSpec (all_channels : List Channel) (wanted : List Char) :
    selectMatch all_channels wanted = matcherSpec all_channels wanted := by
  rw [selectMatch, matcherSpec, foldl_selectStep]
  rfl

theorem firstShortest_isSome :
    ∀ l : List Channel, (firstShortest l).isSome = !l.isEmpty := by
  intro l
  induction l with
  | nil => rfl
  | cons c cs ih =>
    cases h : firstShortest cs with
    | none => simp [firstShortest, h]
    | some b => simp only [firstShortest, h]; split <;> simp

theorem firstShortest_mem :
    ∀ {l : List Channel} {c : Channel}, firstShortest l = some c → c ∈ l := by
  intro l
  induction l with
  | nil => intro c h; simp [firstShortest] at h
  | cons x xs ih =>
    intro c h
    cases h2 : firstShortest xs with
    | none =>
      simp only [firstShortest, h2, Option.some.injEq] at h
      subst h
      exact List.mem_cons_self _ _
    | some b =>
      simp only [firstShortest, h2] at h
      by_cases hc : b.name.length < x.name.length
      · rw [if_pos hc, Option.some.injEq] at h
        subst h
        exact List.mem_cons_of_mem _ (ih h2)
      · rw [if_neg hc, Option.some.injEq] at h
        subst h
        exact List.mem_cons_self _ _

theorem selectMatch_mem {all_channels : List Channel} {wanted : List Char} {c : Channel}
    (h : selectMatch all_channels wanted = some c) : c ∈ all_channels := by
  rw [selectMatch_eq_matcherSpec, matcherSpec] at h
  exact List.filter_subset' _ (firstShortest_mem h)

theorem selectMatch_isSome (all_channels : List Channel) (wanted : List Char) :
    (selectMatch all_channels wanted).isSome = true ↔
      ∃ c ∈ all_channels, match_channel_strict c.name wanted = true := by
  rw [selectMatch_eq_matcherSpec, matcherSpec, firstShortest_isSome]
  rw [Bool.not_eq_true']
  constructor
  · intro h
    have hne : List.filter (fun c => match_channel_strict c.name wanted) all_channels ≠ [] := by
      intro hnil
      rw [hnil] at h
      simp at h
    rcases List.exists_mem_of_ne_nil _ hne with ⟨c, hc⟩
    exact ⟨c, List.filter_subset' _ hc, (List.mem_filter.mp hc).2⟩
  · rintro ⟨c, hc, hm⟩
    have hmem : c ∈ List.filter (fun c => match_channel_strict c.name wanted) all_channels :=
      List.mem_filter.mpr ⟨hc, hm⟩
    cases hfil : List.filter (fun c => match_channel_strict c.name wanted) all_channels with
    | nil => rw [hfil] at hmem; simp at hmem
    | cons a as => rfl

-- ---------------------------------------------------------------------------
-- Helper lemmas: the first pass of the builder.
-- ---------------------------------------------------------------------------

theorem firstPassAux_isSome (all_channels : List Channel) :
    ∀ (ws : List (List Char)) (idx : Nat) (f : List Char → Option (Channel × Nat))
      (q : List Char),
      (firstPassAux all_channels idx f ws q).isSome = true ↔
        (f q).isSome = true ∨ (q ∈ ws ∧ (selectMatch all_channels q).isSome = true) := by
  intro ws
  induction ws with
  | nil => intro idx f q; simp [firstPassAux]
  | cons w ws ih =>
    intro idx f q
    simp only [firstPassAux]
    rw [ih]
    cases hs : selectMatch all_channels w with
    | some c =>
      by_cases hq : q = w
      · subst hq
        simp [hs]
      · simp [hs, hq]
    | none =>
      by_cases hq : q = w
      · subst hq
        simp [hs]
      · simp [hs, hq]

theorem firstPassAux_spec (all_channels : List Channel) :
    ∀ (ws : List (List Char)) (idx : Nat) (f : List Char → Option (Channel × Nat))
      (q : List Char) (c : Channel) (n : Nat),
      firstPassAux all_channels idx f ws q = some (c, n) →
        f q = some (c, n) ∨
          (∃ j, ws[j]? = some q ∧ n = idx + j ∧ selectMatch all_channels q = some c) := by
  intro ws
  induction ws with
  | nil =>
    intro idx f q c n h
    exact Or.inl h
  | cons w ws ih =>
    intro idx f q c n h
    simp only [firstPassAux] at h
    rcases ih _ _ _ _ _ h with h2 | ⟨j, hj, hn, hsel⟩
    · revert h2
      cases hs : selectMatch all_channels w with
      | some c2 =>
        intro h2
        dsimp only at h2
        by_cases hq : q = w
        · subst hq
          rw [if_pos rfl] at h2
          simp only [Option.some.injEq, Prod.mk.injEq] at h2
          obtain ⟨hc, hn⟩ := h2
          subst hc
          subst hn
          exact Or.inr ⟨0, by simp, by omega, hs⟩
        · rw [if_neg hq] at h2
          exact Or.inl h2
      | none =>
        intro h2
        exact Or.inl h2
    · exact Or.inr ⟨j + 1, by simpa using hj, by omega, hsel⟩

theorem firstPass_isSome (all_channels : List Channel) (ws : List (List Char)) (q : List Char) :
    (firstPass all_channels ws q).isSome = true ↔
      q ∈ ws ∧ (selectMatch all_channels q).isSome = true := by
  rw [firstPass, firstPassAux_isSome]
  simp

theorem firstPass_spec {all_channels : List Channel} {ws : List (List Char)}
    {q : List Char} {c : Channel} {n : Nat}
    (h : firstPass all_channels ws q = some (c, n)) :
    ∃ j, ws[j]? = some q ∧ n = 1 + j ∧ selectMatch all_channels q = some c := by
  rcases firstPassAux_spec all_channels ws 1 (fun _ => none) q c n h with h2 | h2
  · exact absurd h2 (by simp)
  · exact h2

-- ---------------------------------------------------------------------------
-- Helper lemmas: line counting of the final text.
-- ---------------------------------------------------------------------------

theorem emitEntry_length (f : List Char → Option (Channel × Nat)) (w : List Char) :
    (emitEntry f w).length = if (f w).isSome then 2 else 0 := by
  cases h : f w with
  | none => simp [emitEntry, h]
  | some p => cases p; simp [emitEntry, h]

theorem sum_map_two_count (p : List Char → Bool) :
    ∀ ws : List (List Char),
      (ws.map (fun w => if p w then 2 else 0)).sum = 2 * ws.countP p := by
  intro ws
  induction ws with
  | nil => simp
  | cons w ws ih =>
    by_cases h : p w = true
    · simp [h, List.countP_cons, ih]
      omega
    · simp [h, List.countP_cons, ih]

theorem build_length (all_channels : List Channel) (ws : List (List Char)) :
    (build_custom_playlist all_channels ws).length =
      1 + 2 * ws.countP (fun w => (selectMatch all_channels w).isSome) := by
  rw [build_custom_playlist]
  rw [List.length_cons, List.length_flatten, List.map_map]
  have hmap : ws.map (List.length ∘ emitEntry (firstPass all_channels ws)) =
      ws.map (fun w => if (selectMatch all_channels w).isSome then 2 else 0) := by
    apply List.map_congr_left
    intro w hw
    simp only [Function.comp_apply, emitEntry_length]
    by_cases hs : (selectMatch all_channels w).isSome = true
    · rw [if_pos ((firstPass_isSome all_channels ws w).mpr ⟨hw, hs⟩), if_pos hs]
    · rw [if_neg (fun hh => hs ((firstPass_isSome all_channels ws w).mp hh).2), if_neg hs]
  rw [hmap, sum_map_two_count]
  omega

theorem joinNL_count :
    ∀ ls : List (List Char), ls ≠ [] → (∀ l ∈ ls, '\n' ∉ l) →
      (joinNL ls).count '\n' + 1 = ls.length := by
  intro ls
  induction ls with
  | nil => intro h; exact absurd rfl h
  | cons l ls ih =>
    intro _ hnl
    cases ls with
    | nil =>
      simp only [joinNL, List.length_singleton]
      rw [List.count_eq_zero.mpr (hnl l (List.mem_singleton_self l))]
    | cons l2 ls2 =>
      have h0 : l.count '\n' = 0 :=
        List.count_eq_zero.mpr (hnl l (List.mem_cons_self _ _))
      have ih2 := ih (by simp) (fun x hx => hnl x (List.mem_cons_of_mem _ hx))
      simp only [joinNL] at ih2 ⊢
      rw [List.count_append, List.count_cons, h0]
      simp only [List.length_cons] at ih2 ⊢
      simp only [beq_self_eq_true, if_true]
      omega

theorem build_lines_not_nl (content : List Char) (ws : List (List Char)) :
    ∀ l ∈ build_custom_playlist (parse_m3u content) ws, '\n' ∉ l := by
  intro l hl
  rcases List.mem_cons.mp hl with h | h
  · subst h; decide
  · rcases List.mem_flatten.mp h with ⟨ll, hll, hmem⟩
    rcases List.mem_map.mp hll with ⟨w, hw, hEq⟩
    subst hEq
    cases hf : firstPass (parse_m3u content) ws w with
    | none => simp [emitEntry, hf] at hmem
    | some p =>
      obtain ⟨c, n⟩ := p
      rcases firstPass_spec hf with ⟨j, _, _, hsel⟩
      have hcmem : c ∈ parse_lines (splitNL content) := selectMatch_mem hsel
      have hch := parse_lines_not_nl (splitNL content)
        (fun x hx => splitNL_not_nl content hx) c hcmem
      simp only [emitEntry, hf] at hmem
      rcases List.mem_cons.mp hmem with h2 | h2
      · subst h2; exact transform_not_nl n hch.1
      · rw [List.mem_singleton] at h2
        subst h2; exact clean_url_not_nl hch.2

theorem playlist_numLines (content : List Char) (ws : List (List Char)) :
    numLines (playlistText (parse_m3u content) ws) =
      (build_custom_playlist (parse_m3u content) ws).length := by
  rw [numLines, playlistText]
  exact joinNL_count _ (by simp [build_custom_playlist]) (build_lines_not_nl content ws)

-- ---------------------------------------------------------------------------
-- Helper lemmas: the diagnostics list.
-- ---------------------------------------------------------------------------

theorem debugAux_length (all_channels : List Channel) :
    ∀ (ws : List (List Char)) (idx : Nat), (debugAux all_channels idx ws).length = ws.length := by
  intro ws
  induction ws with
  | nil => intro idx; rfl
  | cons w ws ih => intro idx; simp [debugAux, ih]

theorem debugAux_getElem (all_channels : List Channel) :
    ∀ (ws : List (List Char)) (idx i : Nat),
      (debugAux all_channels idx ws)[i]? =
        (ws[i]?).map (fun w => debugLine all_channels (idx + i) w) := by
  intro ws
  induction ws with
  | nil => intro idx i; simp [debugAux]
  | cons w ws ih =>
    intro idx i
    cases i with
    | zero => simp [debugAux]
    | succ i =>
      simp only [debugAux, List.getElem?_cons_succ]
      rw [ih (idx + 1) i, show idx + 1 + i = idx + (i + 1) from by omega]

-- ---------------------------------------------------------------------------
-- Claim C1
-- ---------------------------------------------------------------------------

/-- C1 counterexample: the tiers do not act in order.  For the query `La 1`
against candidates whose names are `La 1` (an exact, tier-1 hit) and `a 1`
(only a tier-3 reverse-containment hit), the matcher returns the `a 1`
record because its raw name is shorter, so the returned record is not
selected among the exact-equality candidates. -/
theorem C1_counterexample :
    chLa1exact.name = "La 1".data ∧
    chLa1exact ∈ [chLa1exact, chA1] ∧
    selectMatch [chLa1exact, chA1] "La 1".data = some chA1 ∧
    chA1.name ≠ "La 1".data := by decide

/-- C1 amended: the five checks of `match_channel_strict` act as a single
disjunction with no tier priority — the matcher returns a record exactly
when some candidate passes some check, and the selection among all passing
candidates is by shortest raw name; the spec example `La 1 UHD` still
returns the exact-name candidate because it is the shortest hit. -/
theorem C1_matcher_disjunctive :
    (∀ (all_channels : List Channel) (wanted : List Char),
      (selectMatch all_channels wanted).isSome = true ↔
        ∃ c ∈ all_channels, match_channel_strict c.name wanted = true) ∧
    selectMatch [chUHD, chUHD2160] "La 1 UHD".data = some chUHD :=
  ⟨selectMatch_isSome, by decide⟩

-- ---------------------------------------------------------------------------
-- Claim C2
-- ---------------------------------------------------------------------------

/-- C2 counterexample: a record with an empty display name is selected by
the matcher for the non-empty query `La 1`, because the empty string is a
substring of every query under the reverse-containment check. -/
theorem C2_counterexample :
    parse_m3u "#EXTINF:-1\nhttp://e".data = [chEmptyName] ∧
    chEmptyName.name = [] ∧
    selectMatch [chEmptyName] "La 1".data = some chEmptyName ∧
    "La 1".data ≠ ([] : List Char) := by decide

/-- C2 amended: a descriptor line without a comma yields an empty display
name, and a record with an empty display name matches every query (not only
empty ones): the reverse containment check always accepts the empty
available name. -/
theorem C2_empty_name_matches_everything :
    (∀ extinf_line : List Char, extinf_line.contains ',' = false →
      extract_channel_name extinf_line = []) ∧
    (∀ wanted : List Char, match_channel_strict [] wanted = true) := by
  constructor
  · intro e h
    unfold extract_channel_name
    rw [if_neg (fun hcon => Bool.false_ne_true (h.symm.trans hcon))]
  · intro w
    have h4 : hasSub (lower (strip w)) (lower (strip ([] : List Char))) = true := by
      rw [show strip ([] : List Char) = [] from rfl, show lower [] = [] from rfl]
      exact hasSub_nil _
    simp [match_channel_strict, h4]

/-- Witness for the amended C2 at a concrete comma-less descriptor and a
concrete non-empty query. -/
theorem C2_witness :
    ("#EXTINF:-1".data.contains ',' = false ∧
      extract_channel_name "#EXTINF:-1".data = []) ∧
    match_channel_strict [] "La 1".data = true :=
  ⟨⟨by decide, C2_empty_name_matches_everything.1 "#EXTINF:-1".data (by decide)⟩,
   C2_empty_name_matches_everything.2 "La 1".data⟩

-- ---------------------------------------------------------------------------
-- Claim C3
-- ---------------------------------------------------------------------------

/-- C3 counterexample: on a descriptor line with a comma inside an
attribute value, the extractor returns the text after the first comma, not
the trimmed text after the last comma claimed by the spec. -/
theorem C3_counterexample :
    extract_channel_name "#EXTINF:-1 tvg-id=\"a,b\",Name".data = "b\",Name".data ∧
    extractLastSpec "#EXTINF:-1 tvg-id=\"a,b\",Name".data = "Name".data ∧
    extract_channel_name "#EXTINF:-1 tvg-id=\"a,b\",Name".data ≠
      extractLastSpec "#EXTINF:-1 tvg-id=\"a,b\",Name".data := by decide

theorem splitFirst_append :
    ∀ (pre post : List Char), (∀ c ∈ pre, c ≠ ',') →
      splitFirst ',' (pre ++ ',' :: post) = (pre, post) := by
  intro pre
  induction pre with
  | nil =>
    intro post _
    simp [splitFirst]
  | cons c pre ih =>
    intro post h
    have hc : (c != ',') = true := by
      simp [h c (List.mem_cons_self _ _)]
    have ih2 := ih post (fun x hx => h x (List.mem_cons_of_mem _ hx))
    simp only [splitFirst, List.cons_append, List.takeWhile_cons, List.dropWhile_cons, hc,
      if_true] at ih2 ⊢
    simp only [Prod.mk.injEq] at ih2 ⊢
    exact ⟨by rw [ih2.1], ih2.2⟩

/-- C3 amended: for every descriptor line, the display name is the
substring after the first comma on the line, trimmed of surrounding
whitespace (a line with no comma yields the empty name, as proved for C2). -/
theorem C3_extract_after_first_comma :
    ∀ (pre post : List Char), pre.contains ',' = false →
      extract_channel_name (pre ++ ',' :: post) = strip post := by
  intro pre post h
  have hpre : ∀ c ∈ pre, c ≠ ',' := by
    intro c hc hEq
    subst hEq
    have h2 : pre.contains ',' = true := List.elem_iff.mpr hc
    rw [h] at h2
    exact Bool.false_ne_true h2
  have hcont : (pre ++ ',' :: post).contains ',' = true :=
    List.elem_iff.mpr (List.mem_append.mpr (Or.inr (List.mem_cons_self _ _)))
  unfold extract_channel_name
  rw [if_pos hcont, splitFirst_append pre post hpre]

/-- Witness for the amended C3 at a concrete two-comma descriptor line. -/
theorem C3_witness :
    ("#EXTINF:-1 x=1".data.contains ',' = false) ∧
    extract_channel_name ("#EXTINF:-1 x=1".data ++ ',' :: " La 1 ".data) =
      strip " La 1 ".data :=
  ⟨by decide, C3_extract_after_first_comma "#EXTINF:-1 x=1".data " La 1 ".data (by decide)⟩

-- ---------------------------------------------------------------------------
-- Claim C4
-- ---------------------------------------------------------------------------

/-- C4 counterexample: with the duplicate wanted list `["A", "A"]`, the
entry at position 1 produces a match but is emitted with channel number 2,
because the mapping keyed on the query string was overwritten by the later
occurrence; the transformed line carries `tvg-chno="2"` and not
`tvg-chno="1"`. -/
theorem C4_counterexample :
    firstPass [chA] ["A".data, "A".data] "A".data = some (chA, 2) ∧
    build_custom_playlist [chA] ["A".data, "A".data] =
      ["#EXTM3U".data, transform_extinf chA.extinf 2, clean_url chA.url,
       transform_extinf chA.extinf 2, clean_url chA.url] ∧
    hasSub (transform_extinf chA.extinf 2) "tvg-chno=\"2\"".data = true ∧
    hasSub (transform_extinf chA.extinf 2) "tvg-chno=\"1\"".data = false := by decide

/-- C4 amended: when the wanted list contains no duplicate query strings,
every entry that produces a match is present in the first-pass mapping and
its recorded channel number equals the entry's 1-based position (with
duplicates, the number recorded for a query is the position of its last
occurrence, as the counterexample shows). -/
theorem C4_number_eq_position_nodup :
    ∀ (all_channels : List Channel) (ws : List (List Char)), ws.Nodup →
      ∀ (i : Nat) (w : List Char), ws[i]? = some w →
        ((selectMatch all_channels w).isSome = true →
          (firstPass all_channels ws w).isSome = true) ∧
        (∀ (c : Channel) (n : Nat),
          firstPass all_channels ws w = some (c, n) → n = i + 1) := by
  intro all_channels ws hnodup i w hw
  have hmem : w ∈ ws := by
    rcases List.getElem?_eq_some.mp hw with ⟨hl, he⟩
    exact he ▸ List.getElem_mem hl
  constructor
  · intro hs
    exact (firstPass_isSome all_channels ws w).mpr ⟨hmem, hs⟩
  · intro c n h
    rcases firstPass_spec h with ⟨j, hj, hn, _⟩
    have hlen : i < ws.length := (List.getElem?_eq_some.mp hw).1
    have hij : i = j := List.getElem?_inj hlen hnodup (hw.trans hj.symm)
    omega

/-- Witness for the amended C4: a duplicate-free wanted list where the
matched first entry is recorded with number 1. -/
theorem C4_witness :
    (["A".data, "B".data] : List (List Char)).Nodup ∧
    (["A".data, "B".data] : List (List Char))[0]? = some "A".data ∧
    (selectMatch [chA] "A".data).isSome = true ∧
    (firstPass [chA] ["A".data, "B".data] "A".data).isSome = true ∧
    (firstPass [chA] ["A".data, "B".data] "A".data = some (chA, 1) → 1 = 0 + 1) :=
  ⟨by decide, by decide, by decide,
   (C4_number_eq_position_nodup [chA] ["A".data, "B".data] (by decide) 0 "A".data
     (by decide)).1 (by decide),
   (C4_number_eq_position_nodup [chA] ["A".data, "B".data] (by decide) 0 "A".data
     (by decide)).2 chA 1⟩

-- ---------------------------------------------------------------------------
-- Claim C5
-- ---------------------------------------------------------------------------

/-- C5: the candidate scan returns exactly the first candidate of minimal
raw display-name length among the matching candidates: the shortest raw
name wins and ties of equal shortest length go to the earliest candidate in
the sequence. -/
theorem C5_shortest_first_tiebreak :
    ∀ (all_channels : List Channel) (wanted : List Char),
      selectMatch all_channels wanted = matcherSpec all_channels wanted :=
  selectMatch_eq_matcherSpec

-- ---------------------------------------------------------------------------
-- Claim C6
-- ---------------------------------------------------------------------------

/-- C6 counterexample: the cleaner is not idempotent.  On the input
`(12(99p)3p)` the first pass removes only the inner `(99p)` and leaves
`(123p)`, which a second pass removes entirely. -/
theorem C6_counterexample :
    clean_channel_name (clean_channel_name "(12(99p)3p)".data) ≠
      clean_channel_name "(12(99p)3p)".data := by decide

/-- C6 amended: the cleaner maps the documented example
`Tele Safor (720p) [Not 24/7]` to `Tele Safor` and is idempotent on it,
though not on all inputs (see the counterexample). -/
theorem C6_clean_documented_example :
    clean_channel_name "Tele Safor (720p) [Not 24/7]".data = "Tele Safor".data ∧
    clean_channel_name (clean_channel_name "Tele Safor (720p) [Not 24/7]".data) =
      clean_channel_name "Tele Safor (720p) [Not 24/7]".data := by decide

-- ---------------------------------------------------------------------------
-- Claim C7
-- ---------------------------------------------------------------------------

/-- C7: end-to-end scenario.  Building from the source record
`#EXTINF:-1 tvg-id="La1.es" group-title="General",La 1 (1080p)` with the
wanted list `["La 1"]` under the module configuration (`unique` group mode,
group `TDT España`, numeric prefixes and name cleaning on) emits a
descriptor line that carries `tvg-chno="1"` and `group-title="TDT España"`,
whose display name is `001. La 1`, and that no longer contains
`group-title="General"`. -/
theorem C7_end_to_end :
    build_custom_playlist [chLa1Source] ["La 1".data] =
      ["#EXTM3U".data, transform_extinf chLa1Source.extinf 1,
        "http://example.com/stream".data] ∧
    hasSub (transform_extinf chLa1Source.extinf 1) "tvg-chno=\"1\"".data = true ∧
    hasSub (transform_extinf chLa1Source.extinf 1) "group-title=\"TDT España\"".data = true ∧
    extract_channel_name (transform_extinf chLa1Source.extinf 1) = "001. La 1".data ∧
    hasSub (transform_extinf chLa1Source.extinf 1) "group-title=\"General\"".data = false := by
  decide

-- ---------------------------------------------------------------------------
-- Claim C8
-- ---------------------------------------------------------------------------

/-- C8 counterexample: the address check and the stored address use the
trimmed following line, not the raw line.  The line `   http://x` does not
start with the scheme, yet the parser emits exactly one record for the
preceding descriptor, and the stored address differs from the raw line. -/
theorem C8_counterexample :
    startsWithL "http".data "   http://x".data = false ∧
    parse_m3u "#EXTINF:-1,A\n   http://x".data =
      [⟨"#EXTINF:-1,A".data, "http://x".data, "A".data⟩] ∧
    "http://x".data ≠ "   http://x".data := by decide

/-- C8 amended: the parser yields exactly one record for every consecutive
pair of lines whose first member trims to a `#EXTINF` line and whose second
member trims to a line starting with `http` — the record stores the two
trimmed lines — and yields zero records for every other descriptor
(no following line, or a following line whose trimmed form does not start
with `http`). -/
theorem C8_parse_pairwise :
    ∀ content : List Char, parse_m3u content = parseSpec (splitNL content) := by
  intro content
  rw [parse_m3u]
  exact parse_lines_eq_parseSpec _

-- ---------------------------------------------------------------------------
-- Claim C9
-- ---------------------------------------------------------------------------

/-- C9: for every source text and wanted list, the final output text has
exactly `1 + 2 × (number of wanted entries that matched)` lines; a wanted
entry with no match contributes no output lines; the diagnostics list has
exactly one entry per wanted entry, and the entry of an unmatched query at
1-based position `i + 1` is exactly its failure line. -/
theorem C9_output_shape :
    ∀ (content : List Char) (ws : List (List Char)),
      numLines (playlistText (parse_m3u content) ws) =
        1 + 2 * ws.countP (fun w => (selectMatch (parse_m3u content) w).isSome) ∧
      (∀ w : List Char, selectMatch (parse_m3u content) w = none →
        emitEntry (firstPass (parse_m3u content) ws) w = []) ∧
      (debugMatches (parse_m3u content) ws).length = ws.length ∧
      (∀ (i : Nat) (w : List Char), ws[i]? = some w →
        selectMatch (parse_m3u content) w = none →
        (debugMatches (parse_m3u content) ws)[i]? =
          some ("Canal ".data ++ natDigits (i + 1) ++ ": ❌ '".data ++ w ++
            "' -> NO ENCONTRADO".data)) := by
  intro content ws
  refine ⟨?_, ?_, ?_, ?_⟩
  · rw [playlist_numLines, build_length]
  · intro w hw
    cases hf : firstPass (parse_m3u content) ws w with
    | none => simp [emitEntry, hf]
    | some p =>
      obtain ⟨c, n⟩ := p
      rcases firstPass_spec hf with ⟨j, _, _, hsel⟩
      rw [hw] at hsel
      exact absurd hsel (by simp)
  · rw [debugMatches]
    exact debugAux_length _ ws 1
  · intro i w hw hnone
    rw [debugMatches, debugAux_getElem, hw, show 1 + i = i + 1 from by omega]
    simp [debugLine, hnone]

/-- Witness for C9 at a concrete source text and wanted list in which the
entry `A` matches and the entry `B` does not. -/
theorem C9_witness :
    numLines (playlistText (parse_m3u "#EXTINF:-1,A\nhttp://a".data)
        ["A".data, "B".data]) =
      1 + 2 * (["A".data, "B".data] : List (List Char)).countP
        (fun w => (selectMatch (parse_m3u "#EXTINF:-1,A\nhttp://a".data) w).isSome) ∧
    emitEntry (firstPass (parse_m3u "#EXTINF:-1,A\nhttp://a".data)
      ["A".data, "B".data]) "B".data = [] ∧
    (debugMatches (parse_m3u "#EXTINF:-1,A\nhttp://a".data) ["A".data, "B".data])[1]? =
      some ("Canal ".data ++ natDigits 2 ++ ": ❌ '".data ++ "B".data ++
        "' -> NO ENCONTRADO".data) :=
  ⟨(C9_output_shape "#EXTINF:-1,A\nhttp://a".data ["A".data, "B".data]).1,
   (C9_output_shape "#EXTINF:-1,A\nhttp://a".data ["A".data, "B".data]).2.1
     "B".data (by decide),
   (C9_output_shape "#EXTINF:-1,A\nhttp://a".data ["A".data, "B".data]).2.2.2
     1 "B".data (by decide) (by decide)⟩

-- ---------------------------------------------------------------------------
-- Claim C10
-- ---------------------------------------------------------------------------

/-- C10 counterexample: removal of the group attribute can concatenate
fragments of the line into a new group label.  On the comma-less line
`group-tigroup-title="a" tle="b"` in mode `unique`, the single
left-to-right removal pass leaves `group-title="b"`, so the emitted
descriptor line still carries a group label. -/
theorem C10_counterexample :
    ("group-tigroup-title=\"a\" tle=\"b\"".data).contains ',' = false ∧
    normalize_group_title "group-tigroup-title=\"a\" tle=\"b\"".data 1 "unique".data
      UNIQUE_GROUP_NAME = "group-title=\"b\"".data ∧
    hasSub (normalize_group_title "group-tigroup-title=\"a\" tle=\"b\"".data 1 "unique".data
      UNIQUE_GROUP_NAME) "group-title=\"".data = true := by decide

/-- C10 amended: in the modes `unique` and `custom`, a descriptor line with
no comma is returned exactly as the single left-to-right
attribute-removal pass leaves it — no replacement group label is inserted
(the removal pass usually, but not always, eliminates every group label:
see the counterexample). -/
theorem C10_no_comma_no_insertion :
    ∀ (extinf_line : List Char) (channel_number : Nat) (mode custom_name : List Char),
      (mode = "unique".data ∨ mode = "custom".data) →
      extinf_line.contains ',' = false →
      normalize_group_title extinf_line channel_number mode custom_name =
        gsub (matchAttr "group-title=\"".data) extinf_line := by
  intro e n mode custom hmode hcomma
  have hsub : gsub (matchAttr "group-title=\"".data) e ⊆ e :=
    gsub_subset _ (fun _ _ => matchAttr_subset _) e
  have hcomma2 : (gsub (matchAttr "group-title=\"".data) e).contains ',' = false := by
    cases hc : (gsub (matchAttr "group-title=\"".data) e).contains ',' with
    | false => rfl
    | true =>
      have hmem : (',' : Char) ∈ e := hsub (List.elem_iff.mp hc)
      have h2 : e.contains ',' = true := List.elem_iff.mpr hmem
      rw [hcomma] at h2
      exact absurd h2 Bool.false_ne_true
  rcases hmode with h | h <;> subst h <;>
    simp only [normalize_group_title] <;>
    rw [if_neg (by decide), if_neg (by decide)] <;>
    rw [if_neg (fun hcon => Bool.false_ne_true (hcomma2.symm.trans hcon))]

/-- Witness for the amended C10 at a concrete comma-less descriptor line in
mode `unique`. -/
theorem C10_witness :
    ("unique".data = "unique".data ∨ "unique".data = "custom".data) ∧
    ("#EXTINF:-1 group-title=\"x\" name".data.contains ',' = false) ∧
    normalize_group_title "#EXTINF:-1 group-title=\"x\" name".data 1 "unique".data
      UNIQUE_GROUP_NAME =
      gsub (matchAttr "group-title=\"".data) "#EXTINF:-1 group-title=\"x\" name".data :=
  ⟨Or.inl rfl, by decide,
   C10_no_comma_no_insertion "#EXTINF:-1 group-title=\"x\" name".data 1 "unique".data
     UNIQUE_GROUP_NAME (Or.inl rfl) (by decide)⟩
